import Mathlib

set_option maxRecDepth 100000

/-!
Verification of the task-master repository core: the requirements-to-tasks
extraction engine (`src/projectAnalyzer.js`), the task-state file store
(`src/taskManager.js`) and the resume logic (`src/server.js`).

Strings are modelled as `List Char` (ASCII model of JS strings); the
JavaScript regular expressions of the source are embedded as explicit
scanners faithful to ECMAScript leftmost-match backtracking semantics,
including greedy/lazy quantifier behaviour and `$`-substitution patterns
in `String.prototype.replace`. The file system seen by the task manager is
a single optional file content; clock reads (`new Date()`) are passed in
as an explicit `now` parameter.
-/

def str (s : String) : List Char := s.data

/-- ASCII fragment of the ECMAScript `\s` character class. -/
def isWsChar (c : Char) : Bool :=
  c = ' ' ∨ c = '\t' ∨ c = '\n' ∨ c = '\r' ∨ c = '\x0b' ∨ c = '\x0c'

def lowerL (s : List Char) : List Char := s.map Char.toLower

/-- JS `String.prototype.trim` (ASCII model). -/
def trimL (s : List Char) : List Char :=
  ((s.dropWhile isWsChar).reverse.dropWhile isWsChar).reverse

/-- JS `String.prototype.includes` on char lists. -/
def containsL (hay needle : List Char) : Bool :=
  match hay with
  | [] => needle.isEmpty
  | _ :: t => needle.isPrefixOf hay || containsL t needle

/-- Case-insensitive substring test (both sides lowercased, as the source
lowercases the haystack before `includes`). -/
def containsCI (hay needle : List Char) : Bool :=
  containsL (lowerL hay) needle

/-- Suffix of `hay` after the leftmost case-insensitive occurrence of
`needle` (`needle` given lowercased), or `none`. -/
def afterCI (needle hay : List Char) : Option (List Char) :=
  match hay with
  | [] => if needle.isEmpty then some [] else none
  | _ :: t =>
    if needle.isPrefixOf (lowerL hay) then some (hay.drop needle.length)
    else afterCI needle t

/-- Consume an optional leading colon (regex `:?`). -/
def dropColon (s : List Char) : List Char :=
  match s with
  | ':' :: t => t
  | _ => s

/-- Capture of `\s*(.*?)(?:\n\n|\n#|\n\*\*|$)` with the `s` (dotAll) flag:
greedy whitespace skip, then lazily up to the first `\n\n`, `\n#`, `\n**`
terminator or end of input. -/
def takeSection (s : List Char) : List Char :=
  takeSectionAux (s.dropWhile isWsChar)
where
  takeSectionAux : List Char → List Char
  | [] => []
  | '\n' :: '\n' :: _ => []
  | '\n' :: '#' :: _ => []
  | '\n' :: '*' :: '*' :: _ => []
  | c :: t => c :: takeSectionAux t

/-- Capture of `\s*(.*?)(?:\n|$)` without dotAll: greedy whitespace skip,
then the rest of the line. -/
def takeLineCapture (s : List Char) : List Char :=
  (s.dropWhile isWsChar).takeWhile (fun c => c ≠ '\n')

/-- Model of `requirements.match(/Project Name:?\s*(.*?)(?:\n|$)/i)`, trimmed, with
default `'New Project'` (source `projectAnalyzer.js:13-14`). -/
def extractProjectName (r : List Char) : List Char :=
  match afterCI (str "project name") r with
  | some rest => trimL (takeLineCapture (dropColon rest))
  | none => str "New Project"

/-- Model of `requirements.match(/Project Description:?\s*(.*?)(?:\n\n|\n#|\n\*\*|$)/is)`,
trimmed, defaulting to the empty string (source `projectAnalyzer.js:17-18`). -/
def extractProjectDescription (r : List Char) : List Char :=
  match afterCI (str "project description") r with
  | some rest => trimL (takeSection (dropColon rest))
  | none => []

/-- Model of `requirements.match(/Environment Setup:?\s*(.*?)(?:\n\n|\n#|\n\*\*|$)/is)`,
trimmed (source `projectAnalyzer.js:21-22`). -/
def extractEnvironmentSetup (r : List Char) : List Char :=
  match afterCI (str "environment setup") r with
  | some rest => trimL (takeSection (dropColon rest))
  | none => []

/-- The `Tasks:` block capture (source `projectAnalyzer.js:44-47`). -/
def tasksSection (r : List Char) : Option (List Char) :=
  match afterCI (str "tasks") r with
  | some rest => some (takeSection (dropColon rest))
  | none => none

/-- Model of `determineTaskPriority` (source `projectAnalyzer.js:100-137`): fixed
keyword-precedence classification of a text fragment. -/
def determineTaskPriority (text : List Char) : String :=
  let l := lowerL text
  if containsL l (str "urgent") || containsL l (str "critical") ||
     containsL l (str "important") || containsL l (str "high priority") then
    "HIGH"
  else if containsL l (str "low priority") || containsL l (str "optional") ||
          containsL l (str "if time permits") then
    "LOW"
  else if containsL l (str "database") || containsL l (str "authentication") ||
          containsL l (str "core") || containsL l (str "foundation") ||
          containsL l (str "architecture") || containsL l (str "security") then
    "HIGH"
  else if containsL l (str "ui") || containsL l (str "ux") ||
          containsL l (str "design") || containsL l (str "style") ||
          containsL l (str "appearance") || containsL l (str "documentation") then
    "MEDIUM"
  else
    "MEDIUM"

/-- Model of `inferProjectType` (source `projectAnalyzer.js:144-178`): project
archetype from keyword signals, tried in the order web, mobile, api, data. -/
def inferProjectType (r : List Char) : String :=
  let l := lowerL r
  if containsL l (str "web") || containsL l (str "website") ||
     containsL l (str "frontend") || containsL l (str "backend") ||
     containsL l (str "fullstack") || containsL l (str "html") ||
     containsL l (str "css") || containsL l (str "javascript") then
    "web"
  else if containsL l (str "mobile") || containsL l (str "app") ||
          containsL l (str "ios") || containsL l (str "android") ||
          containsL l (str "flutter") || containsL l (str "react native") then
    "mobile"
  else if containsL l (str "api") || containsL l (str "rest") ||
          containsL l (str "graphql") || containsL l (str "microservice") then
    "api"
  else if containsL l (str "data") || containsL l (str "analysis") ||
          containsL l (str "analytics") || containsL l (str "machine learning") ||
          containsL l (str "ml") || containsL l (str "ai") then
    "data"
  else
    "generic"

/-- A task record as produced by the analyzer and consumed by the store. -/
structure TaskRec where
  title : List Char
  priority : String
  description : List Char
  subtasks : List (List Char) := []
deriving DecidableEq, Repr

def mkTask (t : List Char) (p : String) (d : List Char) : TaskRec :=
  { title := t, priority := p, description := d, subtasks := [] }

/-- Model of `getDefaultTasks` (source `projectAnalyzer.js:185-240`): the static
archetype-to-task-list catalog. -/
def getDefaultTasks (projectType : String) : List TaskRec :=
  if projectType = "web" then
    [ mkTask (str "Setup project structure") "HIGH" (str "Initialize the web project structure and configuration files"),
      mkTask (str "Implement database models") "HIGH" (str "Design and implement database schema and models"),
      mkTask (str "Create authentication system") "HIGH" (str "Implement user authentication and authorization"),
      mkTask (str "Develop API endpoints") "MEDIUM" (str "Create backend API endpoints for data access"),
      mkTask (str "Build frontend UI") "MEDIUM" (str "Develop the user interface components"),
      mkTask (str "Implement business logic") "MEDIUM" (str "Develop core business logic and functionality"),
      mkTask (str "Write tests") "MEDIUM" (str "Create unit and integration tests"),
      mkTask (str "Setup deployment pipeline") "LOW" (str "Configure CI/CD and deployment process") ]
  else if projectType = "mobile" then
    [ mkTask (str "Setup project structure") "HIGH" (str "Initialize the mobile app project structure"),
      mkTask (str "Design app architecture") "HIGH" (str "Define the app architecture and navigation flow"),
      mkTask (str "Implement authentication") "HIGH" (str "Create user authentication and session management"),
      mkTask (str "Develop core screens") "MEDIUM" (str "Build the main screens and functionality"),
      mkTask (str "Implement API integration") "MEDIUM" (str "Connect to backend services and APIs"),
      mkTask (str "Add offline support") "LOW" (str "Implement data caching and offline functionality"),
      mkTask (str "Write tests") "MEDIUM" (str "Create unit and UI tests"),
      mkTask (str "Prepare for app store submission") "LOW" (str "Configure app for distribution") ]
  else if projectType = "api" then
    [ mkTask (str "Define API specifications") "HIGH" (str "Create OpenAPI/Swagger specifications"),
      mkTask (str "Setup project structure") "HIGH" (str "Initialize the API project structure"),
      mkTask (str "Implement database models") "HIGH" (str "Design and implement data models"),
      mkTask (str "Create authentication middleware") "HIGH" (str "Implement API authentication and authorization"),
      mkTask (str "Develop API endpoints") "MEDIUM" (str "Implement the API endpoints and controllers"),
      mkTask (str "Add validation and error handling") "MEDIUM" (str "Implement input validation and error responses"),
      mkTask (str "Write tests") "MEDIUM" (str "Create unit and integration tests"),
      mkTask (str "Setup monitoring and logging") "LOW" (str "Configure API monitoring and logging") ]
  else if projectType = "data" then
    [ mkTask (str "Setup data processing environment") "HIGH" (str "Configure data processing tools and libraries"),
      mkTask (str "Implement data collection") "HIGH" (str "Create data collection and ingestion processes"),
      mkTask (str "Develop data cleaning pipeline") "HIGH" (str "Implement data cleaning and preprocessing"),
      mkTask (str "Create data models") "MEDIUM" (str "Develop analytical or machine learning models"),
      mkTask (str "Implement data visualization") "MEDIUM" (str "Create visualizations and dashboards"),
      mkTask (str "Setup data storage") "MEDIUM" (str "Configure databases or data warehouses"),
      mkTask (str "Write tests") "MEDIUM" (str "Create unit tests for data processing"),
      mkTask (str "Document data dictionary") "LOW" (str "Create documentation for data schemas and models") ]
  else
    [ mkTask (str "Setup project structure") "HIGH" (str "Initialize the project structure and configuration"),
      mkTask (str "Define core requirements") "HIGH" (str "Clarify and document detailed requirements"),
      mkTask (str "Implement core functionality") "HIGH" (str "Develop the main functionality of the project"),
      mkTask (str "Create documentation") "MEDIUM" (str "Write user and developer documentation"),
      mkTask (str "Implement testing") "MEDIUM" (str "Create tests for the project"),
      mkTask (str "Setup deployment process") "LOW" (str "Configure deployment and distribution") ]

/-- States of the scanner for `matchAll(/(?:[-*]|\d+\.)\s*(.*?)(?:\n|$)/g)`
(source `projectAnalyzer.js:49`). `seek` looks for a bullet marker,
`digits` is inside a candidate numbered marker, `ws` consumes the greedy
`\s*` run, `cap` accumulates the lazy capture up to the line end. -/
inductive BulletMode where
  | seek : BulletMode
  | digits : BulletMode
  | ws : BulletMode
  | cap : List Char → BulletMode

/-- Bullet-capture scanner: returns the raw captures of every match of
`(?:[-*]|\d+\.)\s*(.*?)(?:\n|$)` over the tasks section, in order. The
greedy `\s*` may cross newlines; the lazy capture stops at the line end;
a failed numbered-marker attempt resumes one character later, which is a
non-digit here and so is inspected directly as a fresh marker candidate. -/
def bulletScan : BulletMode → List Char → List (List Char)
  | BulletMode.seek, [] => []
  | BulletMode.seek, c :: t =>
    if c = '-' ∨ c = '*' then bulletScan BulletMode.ws t
    else if c.isDigit then bulletScan BulletMode.digits t
    else bulletScan BulletMode.seek t
  | BulletMode.digits, [] => []
  | BulletMode.digits, c :: t =>
    if c.isDigit then bulletScan BulletMode.digits t
    else if c = '.' then bulletScan BulletMode.ws t
    else if c = '-' ∨ c = '*' then bulletScan BulletMode.ws t
    else bulletScan BulletMode.seek t
  | BulletMode.ws, [] => [[]]
  | BulletMode.ws, c :: t =>
    if isWsChar c then bulletScan BulletMode.ws t
    else bulletScan (BulletMode.cap [c]) t
  | BulletMode.cap acc, [] => [acc.reverse]
  | BulletMode.cap acc, c :: t =>
    if c = '\n' then acc.reverse :: bulletScan BulletMode.seek t
    else bulletScan (BulletMode.cap (c :: acc)) t

/-- Tasks extracted from an explicit `Tasks:` block: each capture is
trimmed and empty titles are skipped (source `projectAnalyzer.js:51-63`). -/
def explicitTasks (r : List Char) : List TaskRec :=
  match tasksSection r with
  | none => []
  | some sec =>
    ((bulletScan BulletMode.seek sec).map trimL).filterMap fun ti =>
      if ti = [] then none
      else some (mkTask ti (determineTaskPriority ti) [])

/-- States of the scanner for `matchAll(/#+\s*(.*?)(?:\n|$)/g)`
(source `projectAnalyzer.js:69`). -/
inductive HeadMode where
  | seek : HeadMode
  | hashes : HeadMode
  | ws : HeadMode
  | cap : List Char → HeadMode

/-- Heading-capture scanner: raw captures of every `#+\s*(.*?)(?:\n|$)`
match, in order. The greedy `#+` run ends at the first non-`#` character;
the greedy `\s*` run then ends at the first non-whitespace character,
which starts the lazy capture even if it is another `#` (whitespace can
never resume the `#+` marker). -/
def headScan : HeadMode → List Char → List (List Char)
  | HeadMode.seek, [] => []
  | HeadMode.seek, c :: t =>
    if c = '#' then headScan HeadMode.hashes t
    else headScan HeadMode.seek t
  | HeadMode.hashes, [] => [[]]
  | HeadMode.hashes, c :: t =>
    if c = '#' then headScan HeadMode.hashes t
    else if isWsChar c then headScan HeadMode.ws t
    else headScan (HeadMode.cap [c]) t
  | HeadMode.ws, [] => [[]]
  | HeadMode.ws, c :: t =>
    if isWsChar c then headScan HeadMode.ws t
    else headScan (HeadMode.cap [c]) t
  | HeadMode.cap acc, [] => [acc.reverse]
  | HeadMode.cap acc, c :: t =>
    if c = '\n' then acc.reverse :: headScan HeadMode.seek t
    else headScan (HeadMode.cap (c :: acc)) t

/-- Tasks inferred from markdown headings when the explicit list is empty
(source `projectAnalyzer.js:69-83`). -/
def headingTasks (r : List Char) : List TaskRec :=
  ((headScan HeadMode.seek r).map trimL).filterMap fun st =>
    let l := lowerL st
    if l = str "project name" ∨ l = str "project description" ∨
       l = str "environment setup" ∨ l = str "tasks" then none
    else
      some (mkTask (str "Implement " ++ st) (determineTaskPriority st)
        (str "Based on the " ++ st ++ str " section in requirements"))

/-- Model of `generateTasks` (source `projectAnalyzer.js:40-93`): explicit list
first, then heading inference, then the catalog fallback. -/
def generateTasks (r : List Char) : List TaskRec :=
  if explicitTasks r = [] then
    if headingTasks r = [] then getDefaultTasks (inferProjectType r)
    else headingTasks r
  else explicitTasks r

/-- The analyzer's result record. -/
structure ProjectInfo where
  project_name : List Char
  project_description : List Char
  environment_setup : List Char
  tasks : List TaskRec
deriving DecidableEq, Repr

/-- Model of `analyzeRequirements` (source `projectAnalyzer.js:11-33`). -/
def analyzeRequirements (r : List Char) : ProjectInfo :=
  { project_name := extractProjectName r,
    project_description := extractProjectDescription r,
    environment_setup := extractEnvironmentSetup r,
    tasks := generateTasks r }

def joinNl (xs : List (List Char)) : List Char := List.intercalate ['\n'] xs

/-- ECMAScript `GetSubstitution` for the `$`-patterns of
`String.prototype.replace` (`$$`, `` $` ``, `$'`, `$&`, `$n`/`$nn` with
fallback to the shorter digit count as implementations do; `$<` is literal
since the source regexes have no named groups). -/
def digitVal (c : Char) : Nat := c.toNat - '0'.toNat

def jsRepl (grps : List (List Char)) (matched pre post : List Char) :
    List Char → List Char
  | [] => []
  | c :: rest =>
    if c = '$' then
      match rest with
      | [] => ['$']
      | '$' :: r => '$' :: jsRepl grps matched pre post r
      | '&' :: r => matched ++ jsRepl grps matched pre post r
      | '`' :: r => pre ++ jsRepl grps matched pre post r
      | '\'' :: r => post ++ jsRepl grps matched pre post r
      | d1 :: d2 :: r =>
        if d1.isDigit && d2.isDigit && 1 ≤ 10 * digitVal d1 + digitVal d2 &&
           10 * digitVal d1 + digitVal d2 ≤ grps.length then
          grps.getD (10 * digitVal d1 + digitVal d2 - 1) [] ++
            jsRepl grps matched pre post r
        else if d1.isDigit && 1 ≤ digitVal d1 && digitVal d1 ≤ grps.length then
          grps.getD (digitVal d1 - 1) [] ++ jsRepl grps matched pre post (d2 :: r)
        else
          '$' :: d1 :: jsRepl grps matched pre post (d2 :: r)
      | [d1] =>
        if d1.isDigit && 1 ≤ digitVal d1 && digitVal d1 ≤ grps.length then
          grps.getD (digitVal d1 - 1) []
        else
          ['$', d1]
    else c :: jsRepl grps matched pre post rest

/-- The literal text matched by the pattern
`- \[([ x])\] <escapedTitle>` at a marker `m` and title `t`: since every
regex-special character of the title is escaped by the source
(`taskManager.js:123`), the pattern matches exactly this literal. -/
def cbPat (m : Char) (t : List Char) : List Char :=
  '-' :: ' ' :: '[' :: m :: ']' :: ' ' :: t

/-- Match of `- \[([ x])\] ` at the head of `s`. -/
def cbMark (s : List Char) : Option (Char × List Char) :=
  match s with
  | '-' :: ' ' :: '[' :: m :: ']' :: ' ' :: r =>
    if m = ' ' ∨ m = 'x' then some (m, r) else none
  | _ => none

/-- Match of the full checkbox pattern for title `t` at the head of `s`. -/
def cbHead (t s : List Char) : Option (Char × List Char) :=
  match cbMark s with
  | some (m, r) =>
    if t.isPrefixOf r then some (m, r.drop t.length) else none
  | none => none

/-- Leftmost match of the checkbox pattern: `s = pre ++ cbPat m t ++ post`
with `pre` shortest (the pattern cannot match the empty list, so the empty
case is `none`). -/
def cbSplit (t : List Char) : List Char → Option (List Char × Char × List Char)
  | [] => none
  | c :: s' =>
    match cbHead t (c :: s') with
    | some (m, r) => some ([], m, r)
    | none => (cbSplit t s').map fun x => (c :: x.1, x.2.1, x.2.2)

/-- Model of `content.replace(pattern, `- [${newStatus}] ${taskTitle}`)`
(source `taskManager.js:126-130`): non-global replace of the first match,
with `$`-substitution applied to the replacement string. -/
def cbReplace (t : List Char) (completed : Bool) (s : List Char) : List Char :=
  match cbSplit t s with
  | none => s
  | some (pre, m, post) =>
    pre ++ jsRepl [[m]] (cbPat m t) pre post
      (cbPat (if completed then 'x' else ' ') t) ++ post

def tsLit : List Char := str "Last Updated: "

/-- Leftmost match of `/Last Updated: .*/`: `s = pre ++ tsLit ++ lineRest ++ post`
with `lineRest` running to the end of the line (the literal is non-empty,
so the empty case is `none`). -/
def tsSplit : List Char → Option (List Char × List Char × List Char)
  | [] => none
  | c :: s' =>
    if tsLit.isPrefixOf (c :: s') then
      some ([], ((c :: s').drop tsLit.length).takeWhile (fun x => x ≠ '\n'),
        ((c :: s').drop tsLit.length).dropWhile (fun x => x ≠ '\n'))
    else
      (tsSplit s').map fun x => (c :: x.1, x.2.1, x.2.2)

/-- Model of `newContent.replace(/Last Updated: .*/, `Last Updated: ${currentDate}`)`
(source `taskManager.js:133-134`). The pattern has no capture groups. -/
def tsReplace (now s : List Char) : List Char :=
  match tsSplit s with
  | none => s
  | some (pre, lr, post) =>
    pre ++ jsRepl [] (tsLit ++ lr) pre post (tsLit ++ now) ++ post

/-- Model of `updateTaskStatus` (source `taskManager.js:114-149`) over the explicit
file state: returns the boolean result and the state after the call. The
clock read for the timestamp rewrite is the parameter `now`. -/
def updateTaskStatus (t : List Char) (completed : Bool) (now : List Char)
    (file : Option (List Char)) : Bool × Option (List Char) :=
  match file with
  | none => (false, none)
  | some content =>
    let newContent := cbReplace t completed content
    let updated := tsReplace now newContent
    if updated = content then (false, some content) else (true, some updated)

def normPriority (p : String) : String := if p = "" then "MEDIUM" else p

/-- The markdown lines rendered for one task by `_formatTasks`
(source `taskManager.js:90-99`). -/
def taskLines (t : TaskRec) : List (List Char) :=
  (str "- [ ] " ++ t.title) ::
    ((if t.description = [] then [] else [str "  - " ++ t.description]) ++
      t.subtasks.map (fun s => str "  - [ ] " ++ s))

/-- Model of `_formatTasks` (source `taskManager.js:71-106`): tasks grouped by
normalized priority in the fixed order HIGH, MEDIUM, LOW, each non-empty
group rendered with a heading and a trailing blank line. -/
def formatTasks (tasks : List TaskRec) : List Char :=
  joinNl ((["HIGH", "MEDIUM", "LOW"] : List String).flatMap fun p =>
    let g := tasks.filter fun t => normPriority t.priority = p
    if g.isEmpty then []
    else (str "### " ++ p.data ++ str " Priority Tasks") ::
      (g.flatMap taskLines ++ [[]]))

/-- Model of `createTaskFile` (source `taskManager.js:33-64`): renders the plan
document and overwrites the state file. Both `new Date()` reads are
modelled as the same instant `now`. -/
def createTaskFile (projectName projectDescription : List Char)
    (tasks : List TaskRec) (environmentSetup : List Char)
    (nextSteps : List (List Char)) (notes : List Char) (now : List Char) :
    Option (List Char) :=
  some (str "# " ++ projectName ++ str " - Project Plan\n\n## Project Overview\n" ++
    projectDescription ++ str "\n\n## Environment Setup\n```bash\n" ++
    environmentSetup ++ str "\n```\n\n## Implementation Tasks\n\n" ++
    formatTasks tasks ++ str "\n\n## Progress Tracking\n- Started: " ++ now ++
    str "\n- Last Updated: " ++ now ++
    str "\n- Status: IN PROGRESS\n\n## Next Steps\n" ++
    joinNl (nextSteps.map (fun s => str "- " ++ s)) ++
    str "\n\n## Notes\n" ++ notes)

/-- First match's capture of `/<lit>(.*)/`: the rest of the line after the
leftmost occurrence of the literal. -/
def litLineValue (lit s : List Char) : Option (List Char) :=
  if lit.isPrefixOf s then
    some ((s.drop lit.length).takeWhile (fun c => c ≠ '\n'))
  else
    match s with
    | [] => none
    | _ :: s' => litLineValue lit s'

/-- The text before the LAST occurrence of `lit` in `s` (greedy `(.*)`
backtracks from the right). -/
def lastSplitAt (lit s : List Char) : Option (List Char) :=
  match s with
  | [] => none
  | c :: s' =>
    match lastSplitAt lit s' with
    | some g => some (c :: g)
    | none => if lit.isPrefixOf s then some [] else none

/-- First match of `/# (.*) - Project Plan/` (source `taskManager.js:164`):
leftmost `# ` whose line contains ` - Project Plan`, capture greedy. -/
def planNameFind : List Char → Option (List Char)
  | [] => none
  | c :: s' =>
    if c = '#' then
      match s' with
      | ' ' :: r =>
        match lastSplitAt (str " - Project Plan") (r.takeWhile (fun x => x ≠ '\n')) with
        | some g => some g
        | none => planNameFind s'
      | _ => planNameFind s'
    else planNameFind s'

/-- Lazy capture of `(.*?)(?=\n- \[|$)` without dotAll: extend over
non-newline characters until the position is followed by `\n- [` or is the
end of input; fail if a newline blocks further extension. -/
def capTry : List Char → Option (List Char × List Char)
  | [] => some ([], [])
  | c :: r =>
    if (str "\n- [").isPrefixOf (c :: r) then some ([], c :: r)
    else if c = '\n' then none
    else (capTry r).map fun x => (c :: x.1, x.2)

/-- The `exec` loop over the global regex `- \[([ x])\] (.*?)(?=\n- \[|$)`
(source `taskManager.js:169-179`): on a failed attempt the engine resumes
one character after the attempt's start. Fuel bounds the number of scan
steps; each step strictly shrinks the remaining input, so `length + 1`
initial fuel never runs out. -/
def scanTasksAux : Nat → List Char → List (List Char × Bool)
  | 0, _ => []
  | _, [] => []
  | fuel + 1, c :: r =>
    match cbMark (c :: r) with
    | some (m, afterMark) =>
      match capTry afterMark with
      | some (cap, rem) => (trimL cap, m = 'x') :: scanTasksAux fuel rem
      | none => scanTasksAux fuel r
    | none => scanTasksAux fuel r

def scanTasks (s : List Char) : List (List Char × Bool) :=
  scanTasksAux (s.length + 1) s

/-- The parsed status record (`getCurrentStatus`'s result object). -/
structure ParsedStatus where
  project_name : List Char
  status : List Char
  last_updated : List Char
  tasks : List (List Char × Bool)
  completed_tasks : Nat
  total_tasks : Nat
deriving DecidableEq, Repr

/-- Model of `getCurrentStatus` (source `taskManager.js:155-201`): `none` models the
missing-file error result. -/
def getCurrentStatus (file : Option (List Char)) : Option ParsedStatus :=
  match file with
  | none => none
  | some content =>
    let tks := scanTasks content
    some { project_name := (planNameFind content).getD (str "Unknown"),
           status := (litLineValue (str "Status: ") content).getD (str "Unknown"),
           last_updated := (litLineValue tsLit content).getD (str "Unknown"),
           tasks := tks,
           completed_tasks := (tks.filter (fun tk => tk.2)).length,
           total_tasks := tks.length }

/-- The second, independent priority classifier defined inside
`resumeProject` (source `server.js:260-280`). -/
def serverPriority (title : List Char) : String :=
  let l := lowerL title
  if containsL l (str "high") || containsL l (str "critical") ||
     containsL l (str "important") || containsL l (str "database") ||
     containsL l (str "authentication") || containsL l (str "core") ||
     containsL l (str "foundation") || containsL l (str "architecture") ||
     containsL l (str "security") then
    "HIGH"
  else if containsL l (str "low") || containsL l (str "optional") ||
          containsL l (str "if time permits") then
    "LOW"
  else
    "MEDIUM"

/-- Result object of `resumeProject` (source `server.js:300-307`). -/
structure ResumeInfo where
  project_name : List Char
  status : List Char
  completed_tasks : Nat
  total_tasks : Nat
  next_tasks : List (List Char × Bool)
deriving DecidableEq, Repr

/-- Model of `resumeProject` (source `server.js:244-314`) over the explicit file
state. -/
def resumeProject (file : Option (List Char)) : Option ResumeInfo :=
  match getCurrentStatus file with
  | none => none
  | some st =>
    let incomplete := st.tasks.filter fun tk => !tk.2
    let highTasks := incomplete.filter fun tk => serverPriority tk.1 = "HIGH"
    let medTasks := incomplete.filter fun tk => serverPriority tk.1 = "MEDIUM"
    let lowTasks := incomplete.filter fun tk => serverPriority tk.1 = "LOW"
    let nextTasks := if highTasks.length > 0 then highTasks else medTasks
    let nextTasks2 := if nextTasks.length = 0 then lowTasks else nextTasks
    some { project_name := st.project_name, status := st.status,
           completed_tasks := st.completed_tasks, total_tasks := st.total_tasks,
           next_tasks := nextTasks2.take 3 }

/-- Spec-side guard: the lowercased text contains one of the listed words. -/
def hasAnyWord (s : List Char) (ws : List String) : Bool :=
  ws.any fun w => containsL (lowerL s) (str w)

/-- Guard normal form of `determineTaskPriority` (shared helper). -/
theorem dtpEq (s : List Char) :
    determineTaskPriority s =
      (if hasAnyWord s ["urgent", "critical", "important", "high priority"] = true
       then "HIGH"
       else if hasAnyWord s ["low priority", "optional", "if time permits"] = true
       then "LOW"
       else if hasAnyWord s ["database", "authentication", "core", "foundation",
          "architecture", "security"] = true
       then "HIGH"
       else if hasAnyWord s ["ui", "ux", "design", "style", "appearance",
          "documentation"] = true
       then "MEDIUM"
       else "MEDIUM") := by
  simp only [determineTaskPriority, hasAnyWord, List.any_cons, List.any_nil,
    Bool.or_false, Bool.or_assoc]

/-- Guard normal form of `serverPriority` (shared helper). -/
theorem spEq (s : List Char) :
    serverPriority s =
      (if hasAnyWord s ["high", "critical", "important", "database",
          "authentication", "core", "foundation", "architecture",
          "security"] = true
       then "HIGH"
       else if hasAnyWord s ["low", "optional", "if time permits"] = true
       then "LOW"
       else "MEDIUM") := by
  simp only [serverPriority, hasAnyWord, List.any_cons, List.any_nil,
    Bool.or_false, Bool.or_assoc]

/-- Every classification lands in the three-valued priority range. -/
theorem dtpMem (s : List Char) :
    determineTaskPriority s = "HIGH" ∨ determineTaskPriority s = "MEDIUM" ∨
      determineTaskPriority s = "LOW" := by
  rw [dtpEq]
  split_ifs <;> simp

/-- The heading scanner finds nothing in hash-free text. -/
theorem headScan_no_hash (r : List Char) (h : r.all (fun c => c ≠ '#') = true) :
    headScan HeadMode.seek r = [] := by
  induction r with
  | nil => rfl
  | cons c t ih =>
    simp only [List.all_cons, Bool.and_eq_true, decide_eq_true_eq] at h
    simp [headScan, h.1, ih h.2]

/-- Claim C6: `determineTaskPriority` lowercases its input and applies the
fixed keyword precedence — urgency words give HIGH, else de-prioritization
words give LOW, else architectural words give HIGH, else cosmetic words
give MEDIUM, else MEDIUM — totally, for every input including the empty
string. -/
theorem determineTaskPriority_cascade (s : List Char) :
    (determineTaskPriority s = "HIGH" ∨ determineTaskPriority s = "MEDIUM" ∨
      determineTaskPriority s = "LOW") ∧
    determineTaskPriority [] = "MEDIUM" ∧
    (hasAnyWord s ["urgent", "critical", "important", "high priority"] = true →
      determineTaskPriority s = "HIGH") ∧
    (hasAnyWord s ["urgent", "critical", "important", "high priority"] = false →
     hasAnyWord s ["low priority", "optional", "if time permits"] = true →
      determineTaskPriority s = "LOW") ∧
    (hasAnyWord s ["urgent", "critical", "important", "high priority"] = false →
     hasAnyWord s ["low priority", "optional", "if time permits"] = false →
     hasAnyWord s ["database", "authentication", "core", "foundation",
        "architecture", "security"] = true →
      determineTaskPriority s = "HIGH") ∧
    (hasAnyWord s ["urgent", "critical", "important", "high priority"] = false →
     hasAnyWord s ["low priority", "optional", "if time permits"] = false →
     hasAnyWord s ["database", "authentication", "core", "foundation",
        "architecture", "security"] = false →
     hasAnyWord s ["ui", "ux", "design", "style", "appearance",
        "documentation"] = true →
      determineTaskPriority s = "MEDIUM") ∧
    (hasAnyWord s ["urgent", "critical", "important", "high priority"] = false →
     hasAnyWord s ["low priority", "optional", "if time permits"] = false →
     hasAnyWord s ["database", "authentication", "core", "foundation",
        "architecture", "security"] = false →
     hasAnyWord s ["ui", "ux", "design", "style", "appearance",
        "documentation"] = false →
      determineTaskPriority s = "MEDIUM") := by
  refine ⟨dtpMem s, rfl, ?_, ?_, ?_, ?_, ?_⟩ <;>
    intros <;> rw [dtpEq] <;> simp_all

/-- Witness for C6 at concrete inputs. -/
theorem determineTaskPriority_cascade_witness :
    determineTaskPriority (str "urgent: fix crash") = "HIGH" ∧
    determineTaskPriority (str "polish, optional") = "LOW" :=
  ⟨(determineTaskPriority_cascade (str "urgent: fix crash")).2.2.1 (by decide),
   (determineTaskPriority_cascade (str "polish, optional")).2.2.2.1
     (by decide) (by decide)⟩

/-- Claim C10: the resume-time classifier buckets HIGH exactly on the nine
listed words, then LOW on the three listed words, else MEDIUM; it differs
from `determineTaskPriority`, e.g. on a title containing `urgent` and none
of those words. -/
theorem serverPriority_contrast (s : List Char) :
    (serverPriority s = "HIGH" ↔
      hasAnyWord s ["high", "critical", "important", "database",
        "authentication", "core", "foundation", "architecture",
        "security"] = true) ∧
    (serverPriority s = "LOW" ↔
      (hasAnyWord s ["high", "critical", "important", "database",
        "authentication", "core", "foundation", "architecture",
        "security"] = false ∧
       hasAnyWord s ["low", "optional", "if time permits"] = true)) ∧
    (serverPriority s = "MEDIUM" ↔
      (hasAnyWord s ["high", "critical", "important", "database",
        "authentication", "core", "foundation", "architecture",
        "security"] = false ∧
       hasAnyWord s ["low", "optional", "if time permits"] = false)) ∧
    determineTaskPriority (str "urgent fix") = "HIGH" ∧
    serverPriority (str "urgent fix") = "MEDIUM" := by
  refine ⟨?_, ?_, ?_, by decide, by decide⟩ <;>
    rw [spEq] <;>
    rcases h1 : hasAnyWord s ["high", "critical", "important", "database",
      "authentication", "core", "foundation", "architecture", "security"] <;>
    rcases h2 : hasAnyWord s ["low", "optional", "if time permits"] <;>
    simp [h1, h2]

/-- Claim C8: updating a task when the state file does not exist returns
false and creates no file. -/
theorem updateTaskStatus_missing_file (t : List Char) (completed : Bool)
    (now : List Char) :
    updateTaskStatus t completed now none = (false, none) := rfl

/-- Claim C5: with no `Tasks:` occurrence and no `#` character in the
requirements, the analyzer returns exactly the Default Task Catalog entry
for the inferred project type. -/
theorem fallback_catalog (r : List Char)
    (hts : afterCI (str "tasks") r = none)
    (hh : r.all (fun c => c ≠ '#') = true) :
    (analyzeRequirements r).tasks = getDefaultTasks (inferProjectType r) := by
  have h1 : explicitTasks r = [] := by
    unfold explicitTasks tasksSection
    rw [hts]
  have h2 : headingTasks r = [] := by
    unfold headingTasks
    rw [headScan_no_hash r hh]
    rfl
  show generateTasks r = _
  unfold generateTasks
  rw [h1, h2]
  simp

/-- Witness for C5 at a concrete input. -/
theorem fallback_catalog_witness :
    (analyzeRequirements (str "just some plain words")).tasks =
      getDefaultTasks (inferProjectType (str "just some plain words")) :=
  fallback_catalog (str "just some plain words") (by decide) (by decide)

/-- Well-formedness of the catalog entries (shared helper). -/
theorem catalogOk (pt : String) :
    getDefaultTasks pt ≠ [] ∧
    (∀ tk ∈ getDefaultTasks pt, tk.title ≠ [] ∧
      (tk.priority = "HIGH" ∨ tk.priority = "MEDIUM" ∨ tk.priority = "LOW")) ∧
    6 ≤ (getDefaultTasks pt).length ∧ (getDefaultTasks pt).length ≤ 8 := by
  unfold getDefaultTasks
  split_ifs <;> decide

/-- Tasks from an explicit task list are well-formed (shared helper). -/
theorem explicitTasksOk (r : List Char) :
    ∀ tk ∈ explicitTasks r, tk.title ≠ [] ∧
      (tk.priority = "HIGH" ∨ tk.priority = "MEDIUM" ∨ tk.priority = "LOW") := by
  intro tk htk
  unfold explicitTasks at htk
  rcases h : tasksSection r with _ | sec <;> rw [h] at htk
  · simp at htk
  · simp only [List.mem_filterMap] at htk
    obtain ⟨ti, _, hti⟩ := htk
    by_cases hne : ti = []
    · rw [if_pos hne] at hti
      exact absurd hti (by simp)
    · rw [if_neg hne] at hti
      have heq := Option.some.inj hti
      subst heq
      exact ⟨by simpa [mkTask] using hne, by simpa [mkTask] using dtpMem ti⟩

/-- Tasks from heading inference are well-formed (shared helper). -/
theorem headingTasksOk (r : List Char) :
    ∀ tk ∈ headingTasks r, tk.title ≠ [] ∧
      (tk.priority = "HIGH" ∨ tk.priority = "MEDIUM" ∨ tk.priority = "LOW") := by
  intro tk htk
  unfold headingTasks at htk
  simp only [List.mem_filterMap] at htk
  obtain ⟨st, _, hst⟩ := htk
  by_cases hex : lowerL st = str "project name" ∨ lowerL st = str "project description" ∨
      lowerL st = str "environment setup" ∨ lowerL st = str "tasks"
  · rw [if_pos hex] at hst
    exact absurd hst (by simp)
  · rw [if_neg hex] at hst
    have heq := Option.some.inj hst
    subst heq
    exact ⟨by simp [mkTask, str], by simpa [mkTask] using dtpMem st⟩

/-- Claim C9: the analyzer always returns a non-empty task list of
well-formed tasks (non-empty title, three-valued priority), and when both
the explicit list and heading inference are empty the catalog fallback
supplies between 6 and 8 tasks. -/
theorem analyzeRequirements_invariant (r : List Char) :
    (analyzeRequirements r).tasks ≠ [] ∧
    (∀ tk ∈ (analyzeRequirements r).tasks, tk.title ≠ [] ∧
      (tk.priority = "HIGH" ∨ tk.priority = "MEDIUM" ∨ tk.priority = "LOW")) ∧
    (explicitTasks r = [] → headingTasks r = [] →
      6 ≤ (analyzeRequirements r).tasks.length ∧
        (analyzeRequirements r).tasks.length ≤ 8) := by
  have hg : (analyzeRequirements r).tasks = generateTasks r := rfl
  rw [hg]
  unfold generateTasks
  by_cases h1 : explicitTasks r = []
  · by_cases h2 : headingTasks r = []
    · rw [if_pos h1, if_pos h2]
      exact ⟨(catalogOk _).1, (catalogOk _).2.1, fun _ _ => (catalogOk _).2.2⟩
    · rw [if_pos h1, if_neg h2]
      exact ⟨h2, headingTasksOk r, fun _ hc => absurd hc h2⟩
  · rw [if_neg h1]
    exact ⟨h1, explicitTasksOk r, fun hc => absurd hc h1⟩

/-- Witness for C9 at a concrete input falling through to the catalog. -/
theorem analyzeRequirements_invariant_witness :
    6 ≤ (analyzeRequirements (str "just some plain words")).tasks.length ∧
      (analyzeRequirements (str "just some plain words")).tasks.length ≤ 8 :=
  (analyzeRequirements_invariant (str "just some plain words")).2.2
    (by decide) (by decide)

/-- Claim C2 (code bug): creating a plan with one task and immediately
reading it back yields an empty parsed task list, not the created task.
The read-back regex requires each checkbox line to be followed by a
column-0 `- [` line or the end of input, and the created document places a
blank line after the last task of each priority group, so the round-trip
loses it. -/
theorem createThenRead_loses_task :
    (getCurrentStatus (createTaskFile (str "Demo") []
        [mkTask (str "Build login") "MEDIUM" []] [] [] []
        (str "2024-01-01 00:00:00"))).map ParsedStatus.tasks = some [] ∧
    (some [] : Option (List (List Char × Bool))) ≠
      some [(str "Build login", false)] :=
  ⟨by decide, by decide⟩

/-- Spec-side next-task selection: filter to incomplete tasks, re-derive
each priority from the title text with the resume-time classifier, and
return the first non-empty bucket in HIGH, MEDIUM, LOW order, truncated to
at most 3 entries. -/
def nextSelection (tasks : List (List Char × Bool)) : List (List Char × Bool) :=
  let inc := tasks.filter fun tk => tk.2 = false
  let hi := inc.filter fun tk => serverPriority tk.1 = "HIGH"
  let md := inc.filter fun tk => serverPriority tk.1 = "MEDIUM"
  let lo := inc.filter fun tk => serverPriority tk.1 = "LOW"
  (if hi ≠ [] then hi else if md ≠ [] then md else lo).take 3

/-- The source's two-step bucket choice equals the first-non-empty-bucket
choice (shared helper). -/
theorem pickBuckets {α : Type} [DecidableEq α] (hi md lo : List α) :
    (if (if hi.length > 0 then hi else md).length = 0 then lo
     else if hi.length > 0 then hi else md) =
    (if hi ≠ [] then hi else if md ≠ [] then md else lo) := by
  by_cases hh : hi = []
  · by_cases hm : md = [] <;> simp [hh, hm, List.length_eq_zero]
  · simp [hh, List.length_pos.mpr hh, List.length_eq_zero]

/-- Claim C7: for every readable plan, `resumeProject` returns the parsed
status fields together with `next_tasks` given by the spec-side selection
over the parsed tasks; in particular the two-task scenario returns only
the `Setup database layer` task. -/
theorem resumeProject_selection :
    (∀ (c : List Char) (ps : ParsedStatus),
      getCurrentStatus (some c) = some ps →
      resumeProject (some c) =
        some { project_name := ps.project_name, status := ps.status,
               completed_tasks := ps.completed_tasks,
               total_tasks := ps.total_tasks,
               next_tasks := nextSelection ps.tasks }) ∧
    (resumeProject (some (str "- [ ] Setup database layer\n- [ ] Polish UI"))).map
        ResumeInfo.next_tasks = some [(str "Setup database layer", false)] := by
  constructor
  · intro c ps h
    have hf : ps.tasks.filter (fun tk => !tk.2) =
        ps.tasks.filter (fun tk => tk.2 = false) := by
      apply List.filter_congr
      intro a _
      cases h2 : a.2 <;> rfl
    unfold resumeProject
    rw [h]
    simp only [Option.some.injEq, ResumeInfo.mk.injEq, true_and, and_true]
    unfold nextSelection
    rw [hf, pickBuckets]
  · decide

/-- Witness for C7 at the scenario plan. -/
theorem resumeProject_selection_witness :
    resumeProject (some (str "- [ ] Setup database layer\n- [ ] Polish UI")) =
      some { project_name := str "Unknown", status := str "Unknown",
             completed_tasks := 0, total_tasks := 2,
             next_tasks := nextSelection
               [(str "Setup database layer", false), (str "Polish UI", false)] } :=
  resumeProject_selection.1 _
    { project_name := str "Unknown", status := str "Unknown",
      last_updated := str "Unknown",
      tasks := [(str "Setup database layer", false), (str "Polish UI", false)],
      completed_tasks := 0, total_tasks := 2 }
    (by decide)

def linesOf (s : List Char) : List (List Char) := s.splitOn '\n'

/-- Claim-side reading of a bullet or numbered line: the text after the
marker, trimmed; `none` for a non-bullet line. -/
def bulletTextOf (l : List Char) : Option (List Char) :=
  match l with
  | [] => none
  | '-' :: r => some (trimL r)
  | '*' :: r => some (trimL r)
  | c :: _ =>
    if c.isDigit then
      match l.drop (l.takeWhile Char.isDigit).length with
      | '.' :: r => some (trimL r)
      | _ => none
    else none

/-- Claim-side reading of the `Tasks:` block: the trimmed texts of its
non-empty bullet/numbered lines, in line order. -/
def specBulletTitles (sec : List Char) : List (List Char) :=
  ((linesOf sec).filterMap bulletTextOf).filter (fun t => t ≠ [])

/-- Claim C4 as stated is false: the input has a `Tasks:` block whose only
non-empty bullet line is `- a` (so the claim predicts exactly one task,
titled `a`), but the bullet regex is not line-anchored and also matches the
`-` inside the non-bullet line `see - b`, so the code returns two tasks. -/
theorem bulletExtraction_counterexample :
    tasksSection (str "Tasks:\n- a\nsee - b") = some (str "- a\nsee - b") ∧
    specBulletTitles (str "- a\nsee - b") = [str "a"] ∧
    (analyzeRequirements (str "Tasks:\n- a\nsee - b")).tasks.map TaskRec.title =
      [str "a", str "b"] := by
  refine ⟨by decide, by decide, by decide⟩

/-- The remainder of a line after its bullet marker: the tail after `-`
or `*`, or the tail after a digit run followed by `.`; `none` when the
line does not start with a marker. -/
def bulletMarkerSplit (l : List Char) : Option (List Char) :=
  match l with
  | [] => none
  | c :: r =>
    if c = '-' ∨ c = '*' then some r
    else if c.isDigit then
      if (l.dropWhile Char.isDigit).head? = some '.' then
        some (l.dropWhile Char.isDigit).tail
      else none
    else none

/-- A line that is entirely consumed as one bullet match: a marker, then
in-line whitespace, then a non-empty remainder; no newline characters. -/
def goodBulletLine (l : List Char) : Bool :=
  l.all (fun c => c ≠ '\n') &&
  (match bulletMarkerSplit l with
   | some r => !(r.dropWhile isWsChar).isEmpty
   | none => false)

/-- The captured text of a good bullet line: the remainder after the
marker and the whitespace run. -/
def lineContent (l : List Char) : List Char :=
  match bulletMarkerSplit l with
  | some r => r.dropWhile isWsChar
  | none => []

theorem dropWhileHeadFalse {p : Char → Bool} :
    ∀ (l : List Char) (c : Char) (t : List Char),
      l.dropWhile p = c :: t → p c = false := by
  intro l
  induction l with
  | nil => intro c t h; simp [List.dropWhile] at h
  | cons a l ih =>
    intro c t h
    rw [List.dropWhile_cons] at h
    by_cases pa : p a = true
    · rw [if_pos pa] at h; exact ih c t h
    · rw [if_neg pa] at h
      cases h
      simpa using pa

theorem dropWhileNeNilOfMem {p : Char → Bool} {a : Char} :
    ∀ {l : List Char}, a ∈ l → p a = false → l.dropWhile p ≠ [] := by
  intro l
  induction l with
  | nil => intro h; simp at h
  | cons b l ih =>
    intro hm hp
    rw [List.dropWhile_cons]
    by_cases pb : p b = true
    · rw [if_pos pb]
      rcases List.mem_cons.1 hm with rfl | hm2
      · rw [hp] at pb; cases pb
      · exact ih hm2 hp
    · rw [if_neg pb]; simp

/-- Trimming a list with a non-whitespace head is non-empty. -/
theorem trimLNe (c0 : Char) (ct : List Char) (h : isWsChar c0 = false) :
    trimL (c0 :: ct) ≠ [] := by
  unfold trimL
  rw [List.dropWhile_cons, if_neg (by simp [h])]
  intro hc
  have := List.reverse_eq_nil_iff.1 hc
  have hmem : c0 ∈ (c0 :: ct).reverse := by simp
  exact dropWhileNeNilOfMem hmem h this

theorem filterMapAllSome {α β : Type} (f : α → Option β) (g : α → β) :
    ∀ (l : List α), (∀ a ∈ l, f a = some (g a)) → l.filterMap f = l.map g := by
  intro l
  induction l with
  | nil => intro _; rfl
  | cons a l ih =>
    intro h
    rw [List.filterMap_cons, h a (by simp), List.map_cons,
      ih fun b hb => h b (List.mem_cons_of_mem a hb)]

theorem wsWalk (w : List Char) (hw : ∀ c ∈ w, isWsChar c = true) (rest : List Char) :
    bulletScan BulletMode.ws (w ++ rest) = bulletScan BulletMode.ws rest := by
  induction w with
  | nil => rfl
  | cons c t ih =>
    rw [List.cons_append]
    show (if isWsChar c then bulletScan BulletMode.ws (t ++ rest)
          else bulletScan (BulletMode.cap [c]) (t ++ rest)) = _
    rw [if_pos (by simpa using hw c (by simp))]
    exact ih fun a ha => hw a (List.mem_cons_of_mem c ha)

theorem digitsWalk (ds : List Char) (hd : ∀ c ∈ ds, c.isDigit = true)
    (rest : List Char) :
    bulletScan BulletMode.digits (ds ++ rest) = bulletScan BulletMode.digits rest := by
  induction ds with
  | nil => rfl
  | cons c t ih =>
    rw [List.cons_append]
    show (if c.isDigit then bulletScan BulletMode.digits (t ++ rest)
          else if c = '.' then bulletScan BulletMode.ws (t ++ rest)
          else if c = '-' ∨ c = '*' then bulletScan BulletMode.ws (t ++ rest)
          else bulletScan BulletMode.seek (t ++ rest)) = _
    rw [if_pos (by simpa using hd c (by simp))]
    exact ih fun a ha => hd a (List.mem_cons_of_mem c ha)

theorem capWalkCons (ct : List Char) (hct : ∀ c ∈ ct, c ≠ '\n') :
    ∀ (acc : List Char) (R : List Char),
      bulletScan (BulletMode.cap acc) (ct ++ '\n' :: R) =
        (acc.reverse ++ ct) :: bulletScan BulletMode.seek R := by
  induction ct with
  | nil =>
    intro acc R
    show (if ('\n' : Char) = '\n' then acc.reverse :: bulletScan BulletMode.seek R
          else bulletScan (BulletMode.cap ('\n' :: acc)) R) = _
    rw [if_pos rfl]
    simp
  | cons c t ih =>
    intro acc R
    rw [List.cons_append]
    show (if c = '\n' then acc.reverse :: bulletScan BulletMode.seek (t ++ '\n' :: R)
          else bulletScan (BulletMode.cap (c :: acc)) (t ++ '\n' :: R)) = _
    rw [if_neg (by simpa using hct c (by simp))]
    rw [ih (fun a ha => hct a (List.mem_cons_of_mem c ha)) (c :: acc) R]
    simp

theorem capWalkLast (ct : List Char) (hct : ∀ c ∈ ct, c ≠ '\n') :
    ∀ acc : List Char,
      bulletScan (BulletMode.cap acc) ct = [acc.reverse ++ ct] := by
  induction ct with
  | nil => intro acc; simp [bulletScan]
  | cons c t ih =>
    intro acc
    show (if c = '\n' then acc.reverse :: bulletScan BulletMode.seek t
          else bulletScan (BulletMode.cap (c :: acc)) t) = _
    rw [if_neg (by simpa using hct c (by simp))]
    rw [ih fun a ha => hct a (List.mem_cons_of_mem c ha)]
    simp

theorem wsThenCapCons (r R : List Char) (hr : ∀ c ∈ r, c ≠ '\n')
    (hne : r.dropWhile isWsChar ≠ []) :
    bulletScan BulletMode.ws (r ++ '\n' :: R) =
      (r.dropWhile isWsChar) :: bulletScan BulletMode.seek R := by
  obtain ⟨c0, ct, hdw⟩ : ∃ c0 ct, r.dropWhile isWsChar = c0 :: ct := by
    cases h : r.dropWhile isWsChar with
    | nil => exact absurd h hne
    | cons a b => exact ⟨a, b, rfl⟩
  have hc0 : isWsChar c0 = false := dropWhileHeadFalse r c0 ct hdw
  have hsub : ∀ c ∈ c0 :: ct, c ≠ '\n' := by
    intro c hc
    exact hr c ((List.dropWhile_sublist isWsChar).subset (hdw ▸ hc))
  have hsplit : r.takeWhile isWsChar ++ (c0 :: ct) = r := by
    rw [← hdw]; exact List.takeWhile_append_dropWhile isWsChar r
  calc bulletScan BulletMode.ws (r ++ '\n' :: R)
      = bulletScan BulletMode.ws (r.takeWhile isWsChar ++ ((c0 :: ct) ++ '\n' :: R)) := by
        rw [← List.append_assoc, hsplit]
    _ = bulletScan BulletMode.ws ((c0 :: ct) ++ '\n' :: R) :=
        wsWalk _ (fun c hc => List.mem_takeWhile_imp hc) _
    _ = bulletScan (BulletMode.cap [c0]) (ct ++ '\n' :: R) := by
        rw [List.cons_append]
        show (if isWsChar c0 then bulletScan BulletMode.ws (ct ++ '\n' :: R)
              else bulletScan (BulletMode.cap [c0]) (ct ++ '\n' :: R)) = _
        rw [if_neg (by simp [hc0])]
    _ = ([c0].reverse ++ ct) :: bulletScan BulletMode.seek R :=
        capWalkCons ct (fun c hc => hsub c (List.mem_cons_of_mem c0 hc)) [c0] R
    _ = (r.dropWhile isWsChar) :: bulletScan BulletMode.seek R := by
        rw [hdw]; simp

theorem wsThenCapLast (r : List Char) (hr : ∀ c ∈ r, c ≠ '\n')
    (hne : r.dropWhile isWsChar ≠ []) :
    bulletScan BulletMode.ws r = [r.dropWhile isWsChar] := by
  obtain ⟨c0, ct, hdw⟩ : ∃ c0 ct, r.dropWhile isWsChar = c0 :: ct := by
    cases h : r.dropWhile isWsChar with
    | nil => exact absurd h hne
    | cons a b => exact ⟨a, b, rfl⟩
  have hc0 : isWsChar c0 = false := dropWhileHeadFalse r c0 ct hdw
  have hsub : ∀ c ∈ c0 :: ct, c ≠ '\n' := by
    intro c hc
    exact hr c ((List.dropWhile_sublist isWsChar).subset (hdw ▸ hc))
  have hsplit : r.takeWhile isWsChar ++ (c0 :: ct) = r := by
    rw [← hdw]; exact List.takeWhile_append_dropWhile isWsChar r
  calc bulletScan BulletMode.ws r
      = bulletScan BulletMode.ws (r.takeWhile isWsChar ++ (c0 :: ct)) := by rw [hsplit]
    _ = bulletScan BulletMode.ws (c0 :: ct) :=
        wsWalk _ (fun c hc => List.mem_takeWhile_imp hc) _
    _ = bulletScan (BulletMode.cap [c0]) ct := by
        show (if isWsChar c0 then bulletScan BulletMode.ws ct
              else bulletScan (BulletMode.cap [c0]) ct) = _
        rw [if_neg (by simp [hc0])]
    _ = [[c0].reverse ++ ct] :=
        capWalkLast ct (fun c hc => hsub c (List.mem_cons_of_mem c0 hc)) [c0]
    _ = [r.dropWhile isWsChar] := by rw [hdw]; simp

/-- A good bullet line followed by a newline contributes exactly its
content as one capture. -/
theorem scanGoodCons (l R : List Char) (hl : goodBulletLine l = true) :
    bulletScan BulletMode.seek (l ++ '\n' :: R) =
      lineContent l :: bulletScan BulletMode.seek R := by
  unfold goodBulletLine at hl
  rw [Bool.and_eq_true] at hl
  obtain ⟨hnl, hshape⟩ := hl
  have hnl' : ∀ c ∈ l, c ≠ '\n' := by
    intro c hc
    have := List.all_eq_true.1 hnl c hc
    simpa using this
  cases l with
  | nil => simp [bulletMarkerSplit] at hshape
  | cons c r =>
    by_cases hc : c = '-' ∨ c = '*'
    · have hms : bulletMarkerSplit (c :: r) = some r := by
        show (if c = '-' ∨ c = '*' then some r
              else if c.isDigit then
                if ((c :: r).dropWhile Char.isDigit).head? = some '.' then
                  some ((c :: r).dropWhile Char.isDigit).tail
                else none
              else none) = some r
        rw [if_pos hc]
      rw [hms] at hshape
      have hne : r.dropWhile isWsChar ≠ [] := by
        simpa [List.isEmpty_iff] using hshape
      have hstep : bulletScan BulletMode.seek ((c :: r) ++ '\n' :: R) =
          bulletScan BulletMode.ws (r ++ '\n' :: R) := by
        rw [List.cons_append]
        show (if c = '-' ∨ c = '*' then bulletScan BulletMode.ws (r ++ '\n' :: R)
              else if c.isDigit then bulletScan BulletMode.digits (r ++ '\n' :: R)
              else bulletScan BulletMode.seek (r ++ '\n' :: R)) = _
        rw [if_pos hc]
      rw [hstep, wsThenCapCons r R (fun a ha => hnl' a (List.mem_cons_of_mem c ha)) hne]
      unfold lineContent
      rw [hms]
    · by_cases hd : c.isDigit
      · have hms0 : bulletMarkerSplit (c :: r) =
            (if ((c :: r).dropWhile Char.isDigit).head? = some '.' then
              some ((c :: r).dropWhile Char.isDigit).tail else none) := by
          show (if c = '-' ∨ c = '*' then some r
                else if c.isDigit then
                  if ((c :: r).dropWhile Char.isDigit).head? = some '.' then
                    some ((c :: r).dropWhile Char.isDigit).tail
                  else none
                else none) = _
          rw [if_neg hc, if_pos hd]
        rw [hms0] at hshape
        by_cases hdot : ((c :: r).dropWhile Char.isDigit).head? = some '.'
        swap
        · rw [if_neg hdot] at hshape; cases hshape
        rw [if_pos hdot] at hshape
        obtain ⟨rem, hrest⟩ : ∃ rem, (c :: r).dropWhile Char.isDigit = '.' :: rem := by
          cases hx : (c :: r).dropWhile Char.isDigit with
          | nil => rw [hx] at hdot; cases hdot
          | cons a b =>
            rw [hx] at hdot
            simp at hdot
            exact ⟨b, by rw [hdot]⟩
        have hrem : ((c :: r).dropWhile Char.isDigit).tail = rem := by rw [hrest]; rfl
        rw [hrem] at hshape
        have hne : rem.dropWhile isWsChar ≠ [] := by
          simpa [List.isEmpty_iff] using hshape
        have hdwr : (c :: r).dropWhile Char.isDigit = r.dropWhile Char.isDigit := by
          rw [List.dropWhile_cons, if_pos hd]
        have hdot2 : r.dropWhile Char.isDigit = '.' :: rem := by
          rw [← hdwr]; exact hrest
        have hsplitr : r.takeWhile Char.isDigit ++ ('.' :: rem) = r := by
          rw [← hdot2]; exact List.takeWhile_append_dropWhile Char.isDigit r
        have hstep : bulletScan BulletMode.seek ((c :: r) ++ '\n' :: R) =
            bulletScan BulletMode.digits (r ++ '\n' :: R) := by
          rw [List.cons_append]
          show (if c = '-' ∨ c = '*' then bulletScan BulletMode.ws (r ++ '\n' :: R)
                else if c.isDigit then bulletScan BulletMode.digits (r ++ '\n' :: R)
                else bulletScan BulletMode.seek (r ++ '\n' :: R)) = _
          rw [if_neg hc, if_pos hd]
        have hstep2 : bulletScan BulletMode.digits (r ++ '\n' :: R) =
            bulletScan BulletMode.ws (rem ++ '\n' :: R) := by
          calc bulletScan BulletMode.digits (r ++ '\n' :: R)
              = bulletScan BulletMode.digits
                  (r.takeWhile Char.isDigit ++ (('.' :: rem) ++ '\n' :: R)) := by
                rw [← List.append_assoc, hsplitr]
            _ = bulletScan BulletMode.digits (('.' :: rem) ++ '\n' :: R) :=
                digitsWalk _ (fun a ha => List.mem_takeWhile_imp ha) _
            _ = bulletScan BulletMode.ws (rem ++ '\n' :: R) := by
                rw [List.cons_append]
                show (if ('.' : Char).isDigit then
                        bulletScan BulletMode.digits (rem ++ '\n' :: R)
                      else if ('.' : Char) = '.' then
                        bulletScan BulletMode.ws (rem ++ '\n' :: R)
                      else if ('.' : Char) = '-' ∨ ('.' : Char) = '*' then
                        bulletScan BulletMode.ws (rem ++ '\n' :: R)
                      else bulletScan BulletMode.seek (rem ++ '\n' :: R)) = _
                rw [if_neg (by decide), if_pos rfl]
        have hremnl : ∀ a ∈ rem, a ≠ '\n' := by
          intro a ha
          have : a ∈ (c :: r).dropWhile Char.isDigit := by
            rw [hrest]; exact List.mem_cons_of_mem _ ha
          exact hnl' a ((List.dropWhile_sublist Char.isDigit).subset this)
        rw [hstep, hstep2, wsThenCapCons rem R hremnl hne]
        unfold lineContent
        rw [hms0, if_pos hdot, hrem]
      · have hms : bulletMarkerSplit (c :: r) = none := by
          show (if c = '-' ∨ c = '*' then some r
                else if c.isDigit then
                  if ((c :: r).dropWhile Char.isDigit).head? = some '.' then
                    some ((c :: r).dropWhile Char.isDigit).tail
                  else none
                else none) = none
          rw [if_neg hc, if_neg hd]
        rw [hms] at hshape
        cases hshape

/-- A good bullet line at the end of input contributes exactly its content
as the final capture. -/
theorem scanGoodLast (l : List Char) (hl : goodBulletLine l = true) :
    bulletScan BulletMode.seek l = [lineContent l] := by
  unfold goodBulletLine at hl
  rw [Bool.and_eq_true] at hl
  obtain ⟨hnl, hshape⟩ := hl
  have hnl' : ∀ c ∈ l, c ≠ '\n' := by
    intro c hc
    have := List.all_eq_true.1 hnl c hc
    simpa using this
  cases l with
  | nil => simp [bulletMarkerSplit] at hshape
  | cons c r =>
    by_cases hc : c = '-' ∨ c = '*'
    · have hms : bulletMarkerSplit (c :: r) = some r := by
        show (if c = '-' ∨ c = '*' then some r
              else if c.isDigit then
                if ((c :: r).dropWhile Char.isDigit).head? = some '.' then
                  some ((c :: r).dropWhile Char.isDigit).tail
                else none
              else none) = some r
        rw [if_pos hc]
      rw [hms] at hshape
      have hne : r.dropWhile isWsChar ≠ [] := by
        simpa [List.isEmpty_iff] using hshape
      have hstep : bulletScan BulletMode.seek (c :: r) =
          bulletScan BulletMode.ws r := by
        show (if c = '-' ∨ c = '*' then bulletScan BulletMode.ws r
              else if c.isDigit then bulletScan BulletMode.digits r
              else bulletScan BulletMode.seek r) = _
        rw [if_pos hc]
      rw [hstep, wsThenCapLast r (fun a ha => hnl' a (List.mem_cons_of_mem c ha)) hne]
      unfold lineContent
      rw [hms]
    · by_cases hd : c.isDigit
      · have hms0 : bulletMarkerSplit (c :: r) =
            (if ((c :: r).dropWhile Char.isDigit).head? = some '.' then
              some ((c :: r).dropWhile Char.isDigit).tail else none) := by
          show (if c = '-' ∨ c = '*' then some r
                else if c.isDigit then
                  if ((c :: r).dropWhile Char.isDigit).head? = some '.' then
                    some ((c :: r).dropWhile Char.isDigit).tail
                  else none
                else none) = _
          rw [if_neg hc, if_pos hd]
        rw [hms0] at hshape
        by_cases hdot : ((c :: r).dropWhile Char.isDigit).head? = some '.'
        swap
        · rw [if_neg hdot] at hshape; cases hshape
        rw [if_pos hdot] at hshape
        obtain ⟨rem, hrest⟩ : ∃ rem, (c :: r).dropWhile Char.isDigit = '.' :: rem := by
          cases hx : (c :: r).dropWhile Char.isDigit with
          | nil => rw [hx] at hdot; cases hdot
          | cons a b =>
            rw [hx] at hdot
            simp at hdot
            exact ⟨b, by rw [hdot]⟩
        have hrem : ((c :: r).dropWhile Char.isDigit).tail = rem := by rw [hrest]; rfl
        rw [hrem] at hshape
        have hne : rem.dropWhile isWsChar ≠ [] := by
          simpa [List.isEmpty_iff] using hshape
        have hdwr : (c :: r).dropWhile Char.isDigit = r.dropWhile Char.isDigit := by
          rw [List.dropWhile_cons, if_pos hd]
        have hdot2 : r.dropWhile Char.isDigit = '.' :: rem := by
          rw [← hdwr]; exact hrest
        have hsplitr : r.takeWhile Char.isDigit ++ ('.' :: rem) = r := by
          rw [← hdot2]; exact List.takeWhile_append_dropWhile Char.isDigit r
        have hstep : bulletScan BulletMode.seek (c :: r) =
            bulletScan BulletMode.digits r := by
          show (if c = '-' ∨ c = '*' then bulletScan BulletMode.ws r
                else if c.isDigit then bulletScan BulletMode.digits r
                else bulletScan BulletMode.seek r) = _
          rw [if_neg hc, if_pos hd]
        have hstep2 : bulletScan BulletMode.digits r =
            bulletScan BulletMode.ws rem := by
          calc bulletScan BulletMode.digits r
              = bulletScan BulletMode.digits (r.takeWhile Char.isDigit ++ ('.' :: rem)) := by
                rw [hsplitr]
            _ = bulletScan BulletMode.digits ('.' :: rem) :=
                digitsWalk _ (fun a ha => List.mem_takeWhile_imp ha) _
            _ = bulletScan BulletMode.ws rem := by
                show (if ('.' : Char).isDigit then bulletScan BulletMode.digits rem
                      else if ('.' : Char) = '.' then bulletScan BulletMode.ws rem
                      else if ('.' : Char) = '-' ∨ ('.' : Char) = '*' then
                        bulletScan BulletMode.ws rem
                      else bulletScan BulletMode.seek rem) = _
                rw [if_neg (by decide), if_pos rfl]
        have hremnl : ∀ a ∈ rem, a ≠ '\n' := by
          intro a ha
          have : a ∈ (c :: r).dropWhile Char.isDigit := by
            rw [hrest]; exact List.mem_cons_of_mem _ ha
          exact hnl' a ((List.dropWhile_sublist Char.isDigit).subset this)
        rw [hstep, hstep2, wsThenCapLast rem hremnl hne]
        unfold lineContent
        rw [hms0, if_pos hdot, hrem]
      · have hms : bulletMarkerSplit (c :: r) = none := by
          show (if c = '-' ∨ c = '*' then some r
                else if c.isDigit then
                  if ((c :: r).dropWhile Char.isDigit).head? = some '.' then
                    some ((c :: r).dropWhile Char.isDigit).tail
                  else none
                else none) = none
          rw [if_neg hc, if_neg hd]
        rw [hms] at hshape
        cases hshape

theorem joinNlCons (a b : List Char) (t : List (List Char)) :
    joinNl (a :: b :: t) = a ++ '\n' :: joinNl (b :: t) := by
  simp [joinNl, List.intercalate, List.intersperse]

/-- The bullet scanner over a block of good lines (with an optional
trailing newline) captures exactly the line contents, in order. -/
theorem scanItems :
    ∀ (items : List (List Char)), items ≠ [] →
      (∀ l ∈ items, goodBulletLine l = true) →
      ∀ tailNl : List Char, (tailNl = [] ∨ tailNl = ['\n']) →
      bulletScan BulletMode.seek (joinNl items ++ tailNl) =
        items.map lineContent := by
  intro items
  induction items with
  | nil => intro h; cases h rfl
  | cons a t ih =>
    intro _ hgood tailNl htail
    cases t with
    | nil =>
      have hj : joinNl [a] = a := by simp [joinNl, List.intercalate]
      rw [hj]
      rcases htail with rfl | rfl
      · rw [List.append_nil]
        exact scanGoodLast a (hgood a (by simp))
      · rw [show a ++ ['\n'] = a ++ '\n' :: ([] : List Char) from rfl,
          scanGoodCons a [] (hgood a (by simp))]
        rfl
    | cons b t2 =>
      rw [joinNlCons a b t2]
      rw [show (a ++ '\n' :: joinNl (b :: t2)) ++ tailNl =
            a ++ '\n' :: (joinNl (b :: t2) ++ tailNl) by simp]
      rw [scanGoodCons a _ (hgood a (by simp))]
      rw [ih (by simp) (fun l hl => hgood l (List.mem_cons_of_mem a hl)) tailNl htail]
      rfl

/-- The trimmed content of a good bullet line is non-empty. -/
theorem lineContentTrimNe (l : List Char) (hl : goodBulletLine l = true) :
    trimL (lineContent l) ≠ [] := by
  unfold goodBulletLine at hl
  rw [Bool.and_eq_true] at hl
  obtain ⟨-, hshape⟩ := hl
  unfold lineContent
  cases hms : bulletMarkerSplit l with
  | none => rw [hms] at hshape; cases hshape
  | some r =>
    rw [hms] at hshape
    have hne : r.dropWhile isWsChar ≠ [] := by
      simpa [List.isEmpty_iff] using hshape
    obtain ⟨c0, ct, hdw⟩ : ∃ c0 ct, r.dropWhile isWsChar = c0 :: ct := by
      cases h : r.dropWhile isWsChar with
      | nil => exact absurd h hne
      | cons x y => exact ⟨x, y, rfl⟩
    show trimL (r.dropWhile isWsChar) ≠ []
    rw [hdw]
    exact trimLNe c0 ct (dropWhileHeadFalse r c0 ct hdw)

/-- The explicit-list extraction over a block of good bullet lines. -/
theorem explicitTasksGood (r sec : List Char) (items : List (List Char))
    (tailNl : List Char)
    (hsec : tasksSection r = some sec)
    (hshape : sec = joinNl items ++ tailNl)
    (htail : tailNl = [] ∨ tailNl = ['\n'])
    (hne : items ≠ [])
    (hgood : ∀ l ∈ items, goodBulletLine l = true) :
    explicitTasks r = items.map (fun l =>
      mkTask (trimL (lineContent l))
        (determineTaskPriority (trimL (lineContent l))) []) := by
  unfold explicitTasks
  rw [hsec]
  show ((bulletScan BulletMode.seek sec).map trimL).filterMap _ = _
  rw [hshape, scanItems items hne hgood tailNl htail, List.map_map,
    List.filterMap_map]
  apply filterMapAllSome
  intro a ha
  have hta := lineContentTrimNe a (hgood a ha)
  simp only [Function.comp_apply, if_neg hta]

/-- Claim C4 (amended): for every requirements text whose `Tasks:` block
consists of bullet/numbered lines each with non-empty content (optionally
ending in a newline), the analyzer returns exactly one task per line, in
order, with title the line's content trimmed and priority from the
Priority Classifier; and the scenario input yields project name `Demo`
with tasks `Build login` (MEDIUM) and `urgent: fix crash` (HIGH). -/
theorem bulletExtraction_amended :
    (∀ (r sec : List Char) (items : List (List Char)) (tailNl : List Char),
      tasksSection r = some sec →
      sec = joinNl items ++ tailNl →
      (tailNl = [] ∨ tailNl = ['\n']) →
      items ≠ [] →
      (∀ l ∈ items, goodBulletLine l = true) →
      (analyzeRequirements r).tasks = items.map (fun l =>
        mkTask (trimL (lineContent l))
          (determineTaskPriority (trimL (lineContent l))) [])) ∧
    ((analyzeRequirements
        (str "Project Name: Demo\n\nTasks:\n- Build login\n- urgent: fix crash\n")).project_name =
      str "Demo" ∧
     (analyzeRequirements
        (str "Project Name: Demo\n\nTasks:\n- Build login\n- urgent: fix crash\n")).tasks =
      [mkTask (str "Build login") "MEDIUM" [],
       mkTask (str "urgent: fix crash") "HIGH" []]) := by
  constructor
  · intro r sec items tailNl hsec hshape htail hne hgood
    have he := explicitTasksGood r sec items tailNl hsec hshape htail hne hgood
    have hnonempty : explicitTasks r ≠ [] := by
      rw [he]
      simpa using hne
    show generateTasks r = _
    unfold generateTasks
    rw [if_neg hnonempty, he]
  · exact ⟨by decide, by decide⟩

/-- Witness for the amended C4 at the scenario input. -/
theorem bulletExtraction_amended_witness :
    (analyzeRequirements
        (str "Project Name: Demo\n\nTasks:\n- Build login\n- urgent: fix crash\n")).tasks =
      [str "- Build login", str "- urgent: fix crash"].map (fun l =>
        mkTask (trimL (lineContent l))
          (determineTaskPriority (trimL (lineContent l))) []) :=
  bulletExtraction_amended.1 _
    (str "- Build login\n- urgent: fix crash\n")
    [str "- Build login", str "- urgent: fix crash"] ['\n']
    (by decide) (by decide) (Or.inr rfl) (by decide) (by decide)

/-- A `$`-free replacement template is substituted literally. -/
theorem jsReplNoDollar (grps : List (List Char)) (matched pre post : List Char) :
    ∀ tmpl : List Char, tmpl.all (fun c => c ≠ '$') = true →
      jsRepl grps matched pre post tmpl = tmpl := by
  intro tmpl
  induction tmpl with
  | nil => intro _; rfl
  | cons c rest ih =>
    intro h
    rw [List.all_cons, Bool.and_eq_true] at h
    obtain ⟨hc, hr⟩ := h
    have hc' : ¬(c = '$') := by simpa using hc
    have hstep : jsRepl grps matched pre post (c :: rest) =
        c :: jsRepl grps matched pre post rest := by
      rw [jsRepl.eq_def]
      split
      all_goals simp_all
    rw [hstep, ih hr]

/-- The canonical content shape: prefix, checkbox line for title `t` with
marker `m`, middle part, then the `Last Updated` line and the rest of the
document. -/
def mkContent (P : List Char) (m : Char) (t S old E : List Char) : List Char :=
  P ++ (cbPat m t ++ (S ++ (tsLit ++ (old ++ '\n' :: E))))

theorem cbHeadPat (m : Char) (t r : List Char) (hm : m = ' ' ∨ m = 'x') :
    cbHead t (cbPat m t ++ r) = some (m, r) := by
  have hpre : t.isPrefixOf (t ++ r) = true := by
    rw [List.isPrefixOf_iff_prefix]
    exact List.prefix_append t r
  have h1 : cbMark (cbPat m t ++ r) = some (m, t ++ r) := by
    show (if m = ' ' ∨ m = 'x' then some (m, t ++ r) else none) = some (m, t ++ r)
    rw [if_pos hm]
  unfold cbHead
  rw [h1]
  show (if t.isPrefixOf (t ++ r) then some (m, (t ++ r).drop t.length) else none) =
    some (m, r)
  rw [if_pos hpre, List.drop_left]

/-- A positive head match resolves the leftmost search immediately. -/
theorem cbSplitPos (t s : List Char) (m : Char) (r : List Char)
    (h : cbHead t s = some (m, r)) :
    cbSplit t s = some ([], m, r) := by
  cases s with
  | nil => simp [cbHead, cbMark] at h
  | cons c X =>
    change (match cbHead t (c :: X) with
          | some (mm, rr) => some ([], mm, rr)
          | none => _) = _
    rw [h]

theorem cbSplitCons (t : List Char) (p : Char) (X : List Char)
    (h0 : cbHead t (p :: X) = none) :
    cbSplit t (p :: X) = (cbSplit t X).map fun x => (p :: x.1, x.2.1, x.2.2) := by
  change (match cbHead t (p :: X) with
        | some (mm, rr) => some ([], mm, rr)
        | none => (cbSplit t X).map fun x : List Char × Char × List Char =>
            (p :: x.1, x.2.1, x.2.2)) = _
  rw [h0]

/-- Leftmost checkbox match at an explicit decomposition: no match starts
inside the prefix `P`, and the pattern sits right after it. -/
theorem cbSplitDecomp (t : List Char) (m : Char) (hm : m = ' ' ∨ m = 'x') :
    ∀ (P r : List Char),
      (∀ i, i < P.length → cbHead t ((P ++ (cbPat m t ++ r)).drop i) = none) →
      cbSplit t (P ++ (cbPat m t ++ r)) = some (P, m, r) := by
  intro P
  induction P with
  | nil =>
    intro r _
    rw [List.nil_append]
    exact cbSplitPos t _ m r (cbHeadPat m t r hm)
  | cons p P' ih =>
    intro r hP
    have h0 : cbHead t ((p :: P') ++ (cbPat m t ++ r)) = none := by
      have := hP 0 (by simp)
      simpa using this
    rw [List.cons_append] at h0 ⊢
    rw [cbSplitCons t p (P' ++ (cbPat m t ++ r)) h0]
    rw [ih r fun i hi => by
      have h2 := hP (i + 1) (by simp only [List.length_cons]; omega)
      rwa [List.cons_append, List.drop_succ_cons] at h2]
    rfl

theorem takeWhileNlFree (a : List Char) (ha : ∀ c ∈ a, c ≠ '\n') (E : List Char) :
    (a ++ '\n' :: E).takeWhile (fun c => c ≠ '\n') = a := by
  induction a with
  | nil => simp [List.takeWhile_cons]
  | cons c tl ih =>
    rw [List.cons_append, List.takeWhile_cons,
      if_pos (by simpa using ha c (by simp)),
      ih fun b hb => ha b (List.mem_cons_of_mem c hb)]

theorem dropWhileNlFree (a : List Char) (ha : ∀ c ∈ a, c ≠ '\n') (E : List Char) :
    (a ++ '\n' :: E).dropWhile (fun c => c ≠ '\n') = '\n' :: E := by
  induction a with
  | nil => simp [List.dropWhile_cons]
  | cons c tl ih =>
    rw [List.cons_append, List.dropWhile_cons,
      if_pos (by simpa using ha c (by simp)),
      ih fun b hb => ha b (List.mem_cons_of_mem c hb)]

/-- A positive `Last Updated: ` prefix resolves the leftmost search. -/
theorem tsSplitPos (s : List Char) (h : tsLit.isPrefixOf s = true) :
    tsSplit s = some ([], (s.drop tsLit.length).takeWhile (fun x => x ≠ '
'),
      (s.drop tsLit.length).dropWhile (fun x => x ≠ '
')) := by
  cases s with
  | nil => exact absurd h (by decide)
  | cons c X =>
    change (if tsLit.isPrefixOf (c :: X) = true then
        some ([], ((c :: X).drop tsLit.length).takeWhile (fun x => x ≠ '
'),
          ((c :: X).drop tsLit.length).dropWhile (fun x => x ≠ '
'))
      else _) = _
    rw [if_pos h]

theorem tsSplitConsNone (c : Char) (X : List Char)
    (h : tsLit.isPrefixOf (c :: X) = false) :
    tsSplit (c :: X) = (tsSplit X).map fun x => (c :: x.1, x.2.1, x.2.2) := by
  change (if tsLit.isPrefixOf (c :: X) = true then _
      else (tsSplit X).map fun x : List Char × List Char × List Char =>
        (c :: x.1, x.2.1, x.2.2)) = _
  rw [if_neg (by simp [h])]

/-- Leftmost `Last Updated: ` match at an explicit decomposition. -/
theorem tsSplitAt : ∀ (D old E : List Char),
    (∀ i, i < D.length →
      tsLit.isPrefixOf ((D ++ (tsLit ++ (old ++ '
' :: E))).drop i) = false) →
    (∀ c ∈ old, c ≠ '
') →
    tsSplit (D ++ (tsLit ++ (old ++ '
' :: E))) = some (D, old, '
' :: E) := by
  intro D
  induction D with
  | nil =>
    intro old E _ hold
    have hpre : tsLit.isPrefixOf (tsLit ++ (old ++ '
' :: E)) = true := by
      rw [List.isPrefixOf_iff_prefix]
      exact List.prefix_append _ _
    rw [List.nil_append, tsSplitPos _ hpre, List.drop_left,
      takeWhileNlFree old hold E, dropWhileNlFree old hold E]
  | cons d D' ih =>
    intro old E hD hold
    have h0 : tsLit.isPrefixOf (d :: (D' ++ (tsLit ++ (old ++ '
' :: E)))) = false := by
      have := hD 0 (by simp)
      simpa using this
    rw [List.cons_append, tsSplitConsNone d _ h0]
    rw [ih old E (fun i hi => by
      have h2 := hD (i + 1) (by simp only [List.length_cons]; omega)
      rwa [List.cons_append, List.drop_succ_cons] at h2) hold]
    rfl

theorem nlFreeCancel : ∀ (a b X Y : List Char),
    (∀ c ∈ a, c ≠ '\n') → (∀ c ∈ b, c ≠ '\n') →
    a ++ '\n' :: X = b ++ '\n' :: Y → a = b ∧ X = Y := by
  intro a
  induction a with
  | nil =>
    intro b X Y _ hb h
    cases b with
    | nil => simpa using h
    | cons c bt =>
      rw [List.nil_append, List.cons_append] at h
      have hc : c = '\n' := (List.cons.inj h).1.symm
      exact absurd hc (hb c (by simp))
  | cons c at' ih =>
    intro b X Y ha hb h
    cases b with
    | nil =>
      rw [List.cons_append, List.nil_append] at h
      have hc : c = '\n' := (List.cons.inj h).1
      exact absurd hc (ha c (by simp))
    | cons d bt =>
      rw [List.cons_append, List.cons_append] at h
      obtain ⟨h1, h2⟩ := List.cons.inj h
      obtain ⟨h3, h4⟩ := ih bt X Y (fun e he => ha e (List.mem_cons_of_mem c he))
        (fun e he => hb e (List.mem_cons_of_mem d he)) h2
      exact ⟨by rw [h1, h3], h4⟩

theorem cbPatAppend (m : Char) (t X : List Char) :
    cbPat m t ++ X = '-' :: ' ' :: '[' :: m :: ']' :: ' ' :: (t ++ X) := by
  simp [cbPat]

/-- Two canonical contents are equal exactly when the marker and the
timestamp agree. -/
theorem mkContentEqIff (P S E t old now : List Char) (m x : Char)
    (hold : ∀ c ∈ old, c ≠ '\n') (hnow : ∀ c ∈ now, c ≠ '\n') :
    mkContent P x t S now E = mkContent P m t S old E ↔ (x = m ∧ now = old) := by
  constructor
  · intro h
    unfold mkContent at h
    have h1 := List.append_cancel_left h
    rw [cbPatAppend, cbPatAppend] at h1
    simp only [List.cons.injEq] at h1
    obtain ⟨-, -, -, hx, -, -, h2⟩ := h1
    have h3 := List.append_cancel_left h2
    have h4 := List.append_cancel_left h3
    have h5 := List.append_cancel_left h4
    exact ⟨hx, (nlFreeCancel now old E E hnow hold h5).1⟩
  · rintro ⟨rfl, rfl⟩
    rfl

/-- Full behaviour of `updateTaskStatus` on canonical content (shared
helper): the leftmost checkbox match gets marker `x`, the `Last Updated`
line gets the new timestamp, and the call reports whether anything
changed. -/
theorem updateStatusDecompAux (P S old E t now : List Char) (m x : Char)
    (completed : Bool)
    (hxc : (if completed then 'x' else ' ') = x)
    (hm : m = ' ' ∨ m = 'x')
    (hx : x = ' ' ∨ x = 'x')
    (ht : t.all (fun c => c ≠ '$') = true)
    (hnowd : now.all (fun c => c ≠ '$') = true)
    (hnow : ∀ c ∈ now, c ≠ '\n')
    (hold : ∀ c ∈ old, c ≠ '\n')
    (hP : ∀ i, i < P.length →
      cbHead t ((P ++ (cbPat m t ++ (S ++ (tsLit ++ (old ++ '\n' :: E))))).drop i) = none)
    (hTs : ∀ i, i < (P ++ (cbPat x t ++ S)).length →
      tsLit.isPrefixOf
        (((P ++ (cbPat x t ++ S)) ++ (tsLit ++ (old ++ '\n' :: E))).drop i) = false) :
    updateTaskStatus t completed now (some (mkContent P m t S old E)) =
      (if x = m ∧ now = old
       then (false, some (mkContent P m t S old E))
       else (true, some (mkContent P x t S now E))) := by
  have hsplit : cbSplit t (mkContent P m t S old E) =
      some (P, m, S ++ (tsLit ++ (old ++ '\n' :: E))) :=
    cbSplitDecomp t m hm P _ hP
  have hxd : ¬(x = '$') := by rcases hx with rfl | rfl <;> decide
  have hxall : (cbPat x t).all (fun c => c ≠ '$') = true := by
    unfold cbPat
    simp only [List.all_cons, Bool.and_eq_true, decide_eq_true_eq]
    exact ⟨by decide, by decide, by decide, hxd, by decide, by decide,
      by simpa using ht⟩
  have hcb : cbReplace t completed (mkContent P m t S old E) =
      mkContent P x t S old E := by
    unfold cbReplace
    rw [hsplit]
    change P ++ jsRepl [[m]] (cbPat m t) P (S ++ (tsLit ++ (old ++ '\n' :: E)))
        (cbPat (if completed then 'x' else ' ') t) ++
        (S ++ (tsLit ++ (old ++ '\n' :: E))) = _
    rw [hxc, jsReplNoDollar _ _ _ _ _ hxall]
    unfold mkContent
    simp [List.append_assoc]
  have hassoc : mkContent P x t S old E =
      (P ++ (cbPat x t ++ S)) ++ (tsLit ++ (old ++ '\n' :: E)) := by
    unfold mkContent
    simp [List.append_assoc]
  have hassoc2 : mkContent P x t S now E =
      (P ++ (cbPat x t ++ S)) ++ (tsLit ++ (now ++ '\n' :: E)) := by
    unfold mkContent
    simp [List.append_assoc]
  have htsall : (tsLit ++ now).all (fun c => c ≠ '$') = true := by
    rw [List.all_append, hnowd, Bool.and_true]
    decide
  have hts : tsReplace now (mkContent P x t S old E) = mkContent P x t S now E := by
    rw [hassoc]
    unfold tsReplace
    rw [tsSplitAt (P ++ (cbPat x t ++ S)) old E hTs hold]
    change (P ++ (cbPat x t ++ S)) ++
        jsRepl [] (tsLit ++ old) (P ++ (cbPat x t ++ S)) ('\n' :: E)
          (tsLit ++ now) ++ ('\n' :: E) = _
    rw [jsReplNoDollar _ _ _ _ _ htsall, hassoc2]
    simp [List.append_assoc]
  have hupd : updateTaskStatus t completed now (some (mkContent P m t S old E)) =
      (if tsReplace now (cbReplace t completed (mkContent P m t S old E)) =
          mkContent P m t S old E
       then (false, some (mkContent P m t S old E))
       else (true,
         some (tsReplace now (cbReplace t completed (mkContent P m t S old E))))) := rfl
  rw [hupd, hcb, hts]
  by_cases hcond : x = m ∧ now = old
  · obtain ⟨h1, h2⟩ := hcond
    rw [if_pos (by rw [h1, h2]), if_pos ⟨h1, h2⟩]
  · rw [if_neg (fun hcontra =>
      hcond ((mkContentEqIff P S E t old now m x hold hnow).1 hcontra)),
      if_neg hcond]

/-- Claim C3 as stated is false: a title containing `$$` is mangled by the
`$`-substitution of `String.prototype.replace` — updating `a$$` rewrites
the line to `- [x] a$`, so the title text does not stay byte-identical. -/
theorem updateStatus_frame_counterexample :
    updateTaskStatus (str "a$$") true (str "X")
        (some (str "- [ ] a$$\nLast Updated: X")) =
      (true, some (str "- [x] a$\nLast Updated: X")) ∧
    str "- [x] a$\nLast Updated: X" ≠ str "- [x] a$$\nLast Updated: X" :=
  ⟨by decide, by decide⟩

/-- Claim C3 (amended): on canonical content, for a `$`-free title and a
timestamp-shaped clock value, `updateTaskStatus` rewrites exactly the
matched checkbox marker and the `Last Updated` value — every other byte
(prefix, title text, middle part, trailing document) is unchanged — and
returns true exactly when marker or timestamp actually changed. -/
theorem updateStatus_frame (P S old E t now : List Char) (m : Char)
    (completed : Bool)
    (hm : m = ' ' ∨ m = 'x')
    (ht : t.all (fun c => c ≠ '$') = true)
    (hnowd : now.all (fun c => c ≠ '$') = true)
    (hnow : ∀ c ∈ now, c ≠ '\n')
    (hold : ∀ c ∈ old, c ≠ '\n')
    (hP : ∀ i, i < P.length →
      cbHead t ((P ++ (cbPat m t ++ (S ++ (tsLit ++ (old ++ '\n' :: E))))).drop i) = none)
    (hTs : ∀ i, i < (P ++ (cbPat (if completed then 'x' else ' ') t ++ S)).length →
      tsLit.isPrefixOf
        (((P ++ (cbPat (if completed then 'x' else ' ') t ++ S)) ++
          (tsLit ++ (old ++ '\n' :: E))).drop i) = false) :
    updateTaskStatus t completed now (some (mkContent P m t S old E)) =
      (if (if completed then 'x' else ' ') = m ∧ now = old
       then (false, some (mkContent P m t S old E))
       else (true,
         some (mkContent P (if completed then 'x' else ' ') t S now E))) :=
  updateStatusDecompAux P S old E t now m (if completed then 'x' else ' ')
    completed rfl hm (by cases completed <;> simp) ht hnowd hnow hold hP hTs

/-- Witness for the amended C3 at a concrete plan. -/
theorem updateStatus_frame_witness :
    updateTaskStatus (str "Build login") true (str "2024-01-02 00:00:00")
        (some (mkContent (str "# D - Project Plan\n") ' ' (str "Build login")
          (str "\n\n- Started: X\n- ") (str "2024-01-01 00:00:00")
          (str "- Status: IN PROGRESS"))) =
      (true, some (mkContent (str "# D - Project Plan\n") 'x' (str "Build login")
        (str "\n\n- Started: X\n- ") (str "2024-01-02 00:00:00")
        (str "- Status: IN PROGRESS"))) := by
  have h := updateStatus_frame (str "# D - Project Plan\n")
    (str "\n\n- Started: X\n- ") (str "2024-01-01 00:00:00")
    (str "- Status: IN PROGRESS") (str "Build login") (str "2024-01-02 00:00:00")
    ' ' true (Or.inl rfl) (by decide) (by decide) (by decide) (by decide)
    (by decide) (by decide)
  rw [h]
  decide

/-- Claim C1 as stated is false: on a file whose task is already in the
requested completed state, a call at a later clock second returns true and
rewrites the file (only the `Last Updated` line changes), because the
timestamp substitution is applied before the no-change check. -/
theorem updateStatus_noop_counterexample :
    updateTaskStatus (str "a") true (str "2025-06-01 12:00:00")
        (some (str "- [x] a\nLast Updated: 2024-01-01 00:00:00\n- Status: IN PROGRESS")) =
      (true,
        some (str "- [x] a\nLast Updated: 2025-06-01 12:00:00\n- Status: IN PROGRESS")) ∧
    (true ≠ false) :=
  ⟨by decide, by decide⟩

/-- Claim C1 (amended): on canonical content and with the clock reading
equal to the stored timestamp, a call that finds no checkbox match returns
false and performs no write; completing a task twice at fixed clock
readings returns true (when the marker or timestamp changes) and then
false, the state after the second call being identical to the state after
the first; and for either value of `completed`, a call on a file whose
matched checkbox is already in the requested state returns false and
performs no write. -/
theorem updateStatus_noop_and_idem :
    (∀ (D old E t now : List Char) (completed : Bool),
      cbSplit t (D ++ (tsLit ++ (old ++ '\n' :: E))) = none →
      (∀ i, i < D.length →
        tsLit.isPrefixOf ((D ++ (tsLit ++ (old ++ '\n' :: E))).drop i) = false) →
      (∀ c ∈ old, c ≠ '\n') →
      now.all (fun c => c ≠ '$') = true →
      old = now →
      updateTaskStatus t completed now (some (D ++ (tsLit ++ (old ++ '\n' :: E)))) =
        (false, some (D ++ (tsLit ++ (old ++ '\n' :: E))))) ∧
    (∀ (P S old E t now : List Char) (m : Char),
      (m = ' ' ∨ m = 'x') →
      t.all (fun c => c ≠ '$') = true →
      now.all (fun c => c ≠ '$') = true →
      (∀ c ∈ now, c ≠ '\n') →
      (∀ c ∈ old, c ≠ '\n') →
      (∀ i, i < P.length →
        cbHead t ((P ++ (cbPat m t ++ (S ++ (tsLit ++ (old ++ '\n' :: E))))).drop i) = none) →
      (∀ i, i < P.length →
        cbHead t ((P ++ (cbPat 'x' t ++ (S ++ (tsLit ++ (now ++ '\n' :: E))))).drop i) = none) →
      (∀ i, i < (P ++ (cbPat 'x' t ++ S)).length →
        tsLit.isPrefixOf
          (((P ++ (cbPat 'x' t ++ S)) ++ (tsLit ++ (old ++ '\n' :: E))).drop i) = false) →
      (∀ i, i < (P ++ (cbPat 'x' t ++ S)).length →
        tsLit.isPrefixOf
          (((P ++ (cbPat 'x' t ++ S)) ++ (tsLit ++ (now ++ '\n' :: E))).drop i) = false) →
      updateTaskStatus t true now (some (mkContent P m t S old E)) =
        (if 'x' = m ∧ now = old
         then (false, some (mkContent P m t S old E))
         else (true, some (mkContent P 'x' t S now E))) ∧
      updateTaskStatus t true now (some (mkContent P 'x' t S now E)) =
        (false, some (mkContent P 'x' t S now E))) ∧
    (∀ (P S E t now : List Char) (completed : Bool),
      t.all (fun c => c ≠ '$') = true →
      now.all (fun c => c ≠ '$') = true →
      (∀ c ∈ now, c ≠ '\n') →
      (∀ i, i < P.length →
        cbHead t ((P ++ (cbPat (if completed then 'x' else ' ') t ++
          (S ++ (tsLit ++ (now ++ '\n' :: E))))).drop i) = none) →
      (∀ i, i < (P ++ (cbPat (if completed then 'x' else ' ') t ++ S)).length →
        tsLit.isPrefixOf
          (((P ++ (cbPat (if completed then 'x' else ' ') t ++ S)) ++
            (tsLit ++ (now ++ '\n' :: E))).drop i) = false) →
      updateTaskStatus t completed now
          (some (mkContent P (if completed then 'x' else ' ') t S now E)) =
        (false,
          some (mkContent P (if completed then 'x' else ' ') t S now E))) := by
  refine ⟨?_, ?_, ?_⟩
  · intro D old E t now completed hnc hD hold hnowd heq
    subst heq
    have hcb : cbReplace t completed (D ++ (tsLit ++ (old ++ '\n' :: E))) =
        D ++ (tsLit ++ (old ++ '\n' :: E)) := by
      unfold cbReplace
      rw [hnc]
    have htsall : (tsLit ++ old).all (fun c => c ≠ '$') = true := by
      rw [List.all_append, hnowd, Bool.and_true]
      decide
    have hts : tsReplace old (D ++ (tsLit ++ (old ++ '\n' :: E))) =
        D ++ (tsLit ++ (old ++ '\n' :: E)) := by
      unfold tsReplace
      rw [tsSplitAt D old E hD hold]
      change D ++ jsRepl [] (tsLit ++ old) D ('\n' :: E) (tsLit ++ old) ++
        ('\n' :: E) = _
      rw [jsReplNoDollar _ _ _ _ _ htsall]
      simp [List.append_assoc]
    have hupd : updateTaskStatus t completed old
        (some (D ++ (tsLit ++ (old ++ '\n' :: E)))) =
        (if tsReplace old (cbReplace t completed (D ++ (tsLit ++ (old ++ '\n' :: E)))) =
            D ++ (tsLit ++ (old ++ '\n' :: E))
         then (false, some (D ++ (tsLit ++ (old ++ '\n' :: E))))
         else (true,
           some (tsReplace old
             (cbReplace t completed (D ++ (tsLit ++ (old ++ '\n' :: E))))))) := rfl
    rw [hupd, hcb, hts, if_pos rfl]
  · intro P S old E t now m hm ht hnowd hnow hold hP1 hP2 hTs1 hTs2
    refine ⟨updateStatusDecompAux P S old E t now m 'x' true rfl hm (Or.inr rfl)
      ht hnowd hnow hold hP1 hTs1, ?_⟩
    have h2 := updateStatusDecompAux P S now E t now 'x' 'x' true rfl
      (Or.inr rfl) (Or.inr rfl) ht hnowd hnow hnow hP2 hTs2
    rw [if_pos ⟨rfl, rfl⟩] at h2
    exact h2
  · intro P S E t now completed ht hnowd hnow hP hTs
    cases completed
    · have h := updateStatusDecompAux P S now E t now ' ' ' ' false rfl
        (Or.inl rfl) (Or.inl rfl) ht hnowd hnow hnow hP hTs
      rw [if_pos ⟨rfl, rfl⟩] at h
      exact h
    · have h := updateStatusDecompAux P S now E t now 'x' 'x' true rfl
        (Or.inr rfl) (Or.inr rfl) ht hnowd hnow hnow hP hTs
      rw [if_pos ⟨rfl, rfl⟩] at h
      exact h

/-- Witness for the amended C1 at concrete plans. -/
theorem updateStatus_noop_and_idem_witness :
    updateTaskStatus (str "zzz") true (str "2024-01-01 00:00:00")
        (some (str "- done\n- " ++
          (tsLit ++ (str "2024-01-01 00:00:00" ++ '\n' :: ([] : List Char))))) =
      (false, some (str "- done\n- " ++
        (tsLit ++ (str "2024-01-01 00:00:00" ++ '\n' :: ([] : List Char))))) ∧
    (updateTaskStatus (str "a") true (str "2024-01-01 00:00:05")
        (some (mkContent (str "") ' ' (str "a") (str "\n")
          (str "2024-01-01 00:00:00") (str "end")))).1 = true ∧
    updateTaskStatus (str "a") true (str "2024-01-01 00:00:05")
        (some (mkContent (str "") 'x' (str "a") (str "\n")
          (str "2024-01-01 00:00:05") (str "end"))) =
      (false, some (mkContent (str "") 'x' (str "a") (str "\n")
        (str "2024-01-01 00:00:05") (str "end"))) ∧
    updateTaskStatus (str "a") false (str "2024-01-01 00:00:00")
        (some (mkContent (str "") ' ' (str "a") (str "\n")
          (str "2024-01-01 00:00:00") (str "end"))) =
      (false, some (mkContent (str "") ' ' (str "a") (str "\n")
        (str "2024-01-01 00:00:00") (str "end"))) := by
  refine ⟨?_, ?_, ?_, ?_⟩
  · exact updateStatus_noop_and_idem.1 (str "- done\n- ")
      (str "2024-01-01 00:00:00") [] (str "zzz") (str "2024-01-01 00:00:00")
      true (by decide) (by decide) (by decide) (by decide) rfl
  · have h := (updateStatus_noop_and_idem.2.1 (str "") (str "\n")
      (str "2024-01-01 00:00:00") (str "end") (str "a")
      (str "2024-01-01 00:00:05") ' ' (Or.inl rfl) (by decide) (by decide)
      (by decide) (by decide) (by decide) (by decide) (by decide) (by decide)).1
    rw [h]
    decide
  · exact (updateStatus_noop_and_idem.2.1 (str "") (str "\n")
      (str "2024-01-01 00:00:00") (str "end") (str "a")
      (str "2024-01-01 00:00:05") ' ' (Or.inl rfl) (by decide) (by decide)
      (by decide) (by decide) (by decide) (by decide) (by decide) (by decide)).2
  · exact updateStatus_noop_and_idem.2.2 (str "") (str "\n") (str "end")
      (str "a") (str "2024-01-01 00:00:00") false (by decide) (by decide)
      (by decide) (by decide) (by decide)
